import Mathlib

/-!
# syno-cli: the command dispatcher of `main.go`

A shallow embedding of `src/main.go`.  The program is sequential and talks to
three things outside itself: the `synoapi` client, the standard streams and
the process (which `log.Fatal` terminates).  A run is therefore modelled as
the chronological list of the externally visible events it produces, together
with how it ended (the function returned, or the process exited).

* A Go `string` is a sequence of bytes: `GoString`.
* A Go `error` is represented by the text its `Error()` method returns, which
  is what `%v` and `log.Fatal` print; `nil` is `none`.
* The client is a parameter: every method is an arbitrary function of the
  events that happened before the call, so every behaviour of the remote
  service that a single run can observe is covered.
* `encoding/json`, `bufio`, `strings` and `kingpin` are library code; the
  decoder is a parameter, the two string helpers follow their documentation.
-/

namespace SynoCli

/-- A Go string: a finite sequence of bytes. -/
abbrev GoString := List UInt8

/-- The bytes of a string literal of the source. -/
def lit (s : String) : GoString := s.toUTF8.data.toList

/-- The verb `%d` applied to an integer: its decimal digits. -/
def fmtInt (n : Int) : GoString := lit (toString n)

/-- Modelled from the spec: the element type of the slice returned by
`synoapi.Client.ListShares`, whose declaration is in the `synoapi` package.
`listShares` prints its three fields with `%s`. -/
structure Share where
  Name : GoString
  Encryption : GoString
  Description : GoString
  deriving DecidableEq

/-- The `ShareInfo` struct, lines 80-83. -/
structure ShareInfo where
  Name : GoString
  Password : GoString
  deriving DecidableEq

/-- The errors `(*json.Decoder).Decode` can return, as far as line 92 tells
them apart: a `*json.SyntaxError` with its message and `Offset`, or any other
error (`*json.UnmarshalTypeError`, `io.EOF`, `io.ErrUnexpectedEOF`, a read
error) with its text. -/
inductive DecodeError where
  | SyntaxError (msg : GoString) (Offset : Int)
  | other (msg : GoString)
  deriving DecidableEq

/-- The result of `dec.Decode(&passList)`: the decoded slice or an error. -/
inductive Decoded where
  | ok (passList : List ShareInfo)
  | error (err : DecodeError)
  deriving DecidableEq

/-- What a run does that can be seen from outside, in the order it happens.
Client calls carry their arguments and the value they returned. -/
inductive Event where
  /-- The call `client.Login(user, password)` and the error it returned. -/
  | Login (user password : GoString) (err : Option GoString)
  /-- The call `client.ListShares()` and the pair it returned. -/
  | ListShares (shares : List Share) (err : Option GoString)
  /-- The call `client.LockShare(name)` and the error it returned. -/
  | LockShare (name : GoString) (err : Option GoString)
  /-- The call `client.UnlockShare(name, password)` and the error it returned. -/
  | UnlockShare (name password : GoString) (err : Option GoString)
  /-- The call `client.Logout()` and the error it returned. -/
  | Logout (err : Option GoString)
  /-- The calls `log.Fatal` and `log.Fatalf`: the formatted message is logged and
  the process exits with status 1. -/
  | Fatal (msg : GoString)
  /-- The call `kingpin.Usage()`. -/
  | Usage
  /-- The call `kingpin.UsageErrorf` with its formatted message. -/
  | UsageError (msg : GoString)
  /-- Bytes written to `os.Stderr` by `fmt.Fprint`. -/
  | Stderr (s : GoString)
  /-- The call `dec.Decode(&passList)` on stdin and what it returned. -/
  | Decode (result : Decoded)
  /-- The call `reader.ReadString` on stdin: the bytes it returned and whether it
  returned an error. -/
  | ReadString (pass : GoString) (err : Bool)
  /-- Bytes handed by `fmt.Fprintf` to the `tabwriter.Writer` named `w`. -/
  | TabWrite (s : GoString)
  /-- The call `w.Flush()`. -/
  | TabFlush
  deriving DecidableEq

/-- How a piece of the program ends: it returns a value, or the process has
exited; in both cases with the events produced so far. -/
inductive Res (α : Type) where
  | ret (a : α) (t : List Event)
  | exit (t : List Event)
  deriving DecidableEq

/-- The events of a run, however it ended. -/
def Res.trace {α : Type} : Res α → List Event
  | Res.ret _ t => t
  | Res.exit t => t

/-- The methods of `*synoapi.Client` used by `main.go`.  Each one answers as a
function of the events that preceded the call. -/
structure Client where
  Login : List Event → GoString → GoString → Option GoString
  ListShares : List Event → List Share × Option GoString
  LockShare : List Event → GoString → Option GoString
  UnlockShare : List Event → GoString → GoString → Option GoString
  Logout : List Event → Option GoString

/-- Library behaviour the program depends on: what the JSON decoder makes of
the bytes on stdin, and whether `kingpin.UsageErrorf` exits the process
after printing (the program has a `return` right after it in either case). -/
structure Host where
  Decode : GoString → Decoded
  UsageErrorfExits : Bool

/-- What `kingpin.Parse()` leaves behind on a command line it accepts: the
selected command and the values of the arguments and the flag, lines 17-25. -/
structure Args where
  command : GoString
  lockShareName : GoString
  unlockShareName : GoString
  unlockBatch : Bool

/-! ## Library helpers -/

/-- The method `(*bufio.Reader).ReadString(delim)` on a stream holding `input`:
the bytes up to and including the first `delim` and no error, or, when the
stream ends before a `delim`, everything read and the error `io.EOF`
(`true`). -/
def ReadString (delim : UInt8) : GoString → GoString × Bool
  | [] => ([], true)
  | b :: rest =>
    if b = delim then ([b], false)
    else ((ReadString delim rest).1.cons b, (ReadString delim rest).2)

/-- The function `strings.TrimRight(s, cutset)` for a cutset of one ASCII
byte: all trailing occurrences of that byte are removed. -/
def TrimRight (s : GoString) (c : UInt8) : GoString :=
  s.rdropWhile (fun b => b == c)

/-! ## The program -/

/-- The function `logoutShare`, lines 134-139. -/
def logoutShare (client : Client) (t : List Event) : Res Unit :=
  let err := client.Logout t
  let t1 := t ++ [Event.Logout err]
  match err with
  | some e => Res.exit (t1 ++ [Event.Fatal (lit "Logout failed: " ++ e)])
  | none => Res.ret () t1

/-- The loop of `listShares`, lines 64-66: one `Fprintf` to `w` per share. -/
def listShares.loop : List Share → List Event → List Event
  | [], t => t
  | share :: rest, t =>
    listShares.loop rest
      (t ++ [Event.TabWrite (share.Name ++ lit "\t" ++ share.Encryption ++ lit "\t"
        ++ share.Description ++ lit "\n")])

/-- The function `listShares`, lines 55-69. -/
def listShares (client : Client) (t : List Event) : Res Unit :=
  let r := client.ListShares t
  let t1 := t ++ [Event.ListShares r.1 r.2]
  match r.2 with
  | some e => Res.exit (t1 ++ [Event.Fatal e])
  | none =>
    let t2 := listShares.loop r.1 t1
    logoutShare client (t2 ++ [Event.TabFlush])

/-- The function `lockShare`, lines 71-78. -/
def lockShare (client : Client) (shareName : GoString) (t : List Event) : Res Unit :=
  let err := client.LockShare t shareName
  let t1 := t ++ [Event.LockShare shareName err]
  match err with
  | some e => Res.exit (t1 ++ [Event.Fatal (lit "Locking failed: " ++ e)])
  | none => logoutShare client t1

/-- The function `readPassword`, lines 122-132, reading from a stdin that holds
`stdin`. -/
def readPassword (stdin : GoString) (t : List Event) : Res GoString :=
  let r := ReadString 10 stdin
  let t1 := t ++ [Event.ReadString r.1 r.2]
  let trimmed_pass := TrimRight r.1 10
  if r.2 = true ∨ trimmed_pass = [] then
    Res.exit (t1 ++ [Event.Fatal (lit "Failed to read password")])
  else
    Res.ret trimmed_pass t1

/-- The first half of `unlockShare`, lines 86-108: building `passList`.  The
value `none` stands for the `return` of line 102. -/
def unlockShare.passList (host : Host) (shareName : GoString) (batch : Bool)
    (stdin : GoString) (t : List Event) : Res (Option (List ShareInfo)) :=
  if batch = true then
    let t1 := t ++ [Event.Decode (host.Decode stdin)]
    match host.Decode stdin with
    | Decoded.error (DecodeError.SyntaxError msg off) =>
      Res.exit (t1 ++ [Event.Fatal
        (lit "Failed to decode JSON: " ++ msg ++ lit " (offset " ++ fmtInt off ++ lit ")")])
    | Decoded.error (DecodeError.other msg) =>
      Res.exit (t1 ++ [Event.Fatal (lit "Failed to decode JSON: " ++ msg)])
    | Decoded.ok passList => Res.ret (some passList) t1
  else
    if shareName = [] then
      let t1 := t ++ [Event.UsageError
        (lit "Please provide either a shareName or --batch. Nothing to do.")]
      if host.UsageErrorfExits = true then Res.exit t1 else Res.ret none t1
    else
      let t1 := t ++ [Event.Stderr (lit "Enter password (passing via stdin is also ok):\n")]
      match readPassword stdin t1 with
      | Res.exit t2 => Res.exit t2
      | Res.ret pass t2 => Res.ret (some [ShareInfo.mk shareName pass]) t2

/-- The loop of `unlockShare`, lines 110-117. -/
def unlockShare.loop (client : Client) : List ShareInfo → List Event → Res Unit
  | [], t => Res.ret () t
  | share :: rest, t =>
    let err := client.UnlockShare t share.Name share.Password
    let t1 := t ++ [Event.UnlockShare share.Name share.Password err]
    match err with
    | some e =>
      Res.exit (t1 ++ [Event.Fatal
        (lit "Unlocking share '" ++ share.Name ++ lit "' failed: " ++ e ++ lit ". Aborting.")])
    | none => unlockShare.loop client rest t1

/-- The function `unlockShare`, lines 85-120. -/
def unlockShare (host : Host) (client : Client) (shareName : GoString) (batch : Bool)
    (stdin : GoString) (t : List Event) : Res Unit :=
  match unlockShare.passList host shareName batch stdin t with
  | Res.exit t1 => Res.exit t1
  | Res.ret none t1 => Res.ret () t1
  | Res.ret (some passList) t1 =>
    match unlockShare.loop client passList t1 with
    | Res.exit t2 => Res.exit t2
    | Res.ret _ t2 => logoutShare client t2

/-- The function `main`, lines 27-53, from line 35 on: `user` and `password`
are the values of the environment variables, `args` what `kingpin.Parse()`
returned and stored, `stdin` the bytes available on standard input. -/
def main (host : Host) (client : Client) (user password : GoString) (args : Args)
    (stdin : GoString) : Res Unit :=
  let err := client.Login [] user password
  let t := [Event.Login user password err]
  match err with
  | some e => Res.exit (t ++ [Event.Fatal e])
  | none =>
    if args.command = lit "list" then listShares client t
    else if args.command = lit "lock" then lockShare client args.lockShareName t
    else if args.command = lit "unlock" then
      unlockShare host client args.unlockShareName args.unlockBatch stdin t
    else if args.command = lit "logout" then logoutShare client t
    else Res.ret () (t ++ [Event.Usage])

/-! ## Observing a trace -/

/-- The `(name, password)` arguments of the `UnlockShare` calls of a trace, in
order. -/
def unlockCalls (t : List Event) : List (GoString × GoString) :=
  t.filterMap (fun ev => match ev with
    | Event.UnlockShare name password _ => some (name, password)
    | _ => none)

/-- The messages of the `log.Fatal` and `log.Fatalf` calls of a trace. -/
def fatalMsgs (t : List Event) : List GoString :=
  t.filterMap (fun ev => match ev with
    | Event.Fatal msg => some msg
    | _ => none)

/-- The strings handed to the tabwriter by a trace, in order. -/
def tabWrites (t : List Event) : List GoString :=
  t.filterMap (fun ev => match ev with
    | Event.TabWrite row => some row
    | _ => none)

/-- A call of one of the three share operations. -/
def Event.isShareOp : Event → Bool
  | Event.ListShares _ _ => true
  | Event.LockShare _ _ => true
  | Event.UnlockShare _ _ _ => true
  | _ => false

/-- An operation of the requested action that did not succeed: a share operation
that returned an error, a decode that returned an error, or a read that gave
no password (line 128: an error, or nothing but newlines). -/
def Event.failed : Event → Bool
  | Event.ListShares _ (some _) => true
  | Event.LockShare _ (some _) => true
  | Event.UnlockShare _ _ (some _) => true
  | Event.Decode (Decoded.error _) => true
  | Event.ReadString pass err => err || decide (TrimRight pass 10 = [])
  | _ => false

/-- A call of `client.Logout`. -/
def Event.isLogout : Event → Bool
  | Event.Logout _ => true
  | _ => false

/-- A call of `client.Login` that returned no error. -/
def Event.isLoginOk : Event → Bool
  | Event.Login _ _ none => true
  | _ => false

/-- A `log.Fatal`, `log.Fatalf` or `kingpin.UsageErrorf` call. -/
def Event.isAbort : Event → Bool
  | Event.Fatal _ => true
  | Event.UsageError _ => true
  | _ => false

/-- The events of the calls `UnlockShare` for the requests `reqs`, each
returning no error. -/
def okEvents (reqs : List ShareInfo) : List Event :=
  reqs.map (fun r => Event.UnlockShare r.Name r.Password none)

/-- The row `listShares` formats for one share, line 65. -/
def shareRow (share : Share) : GoString :=
  share.Name ++ [9] ++ share.Encryption ++ [9] ++ share.Description ++ [10]

/-- The command line `unlock` without a share name and without `--batch`, for
which there is nothing to do (line 100). -/
def Args.nothingToDo (args : Args) : Prop :=
  args.command = lit "unlock" ∧ args.unlockBatch = false ∧ args.unlockShareName = []

/-- The way every command ends, `t0` being the events before it, `t` the events
after it and `usage` the condition of line 100.  First come events that are
neither a logout nor a fatal or usage error.  Then, in this order of cases:
nothing has failed and the logout is called (and reported when it fails); or
the last event was a failed operation and the fatal message follows it; or
there was nothing to do and the usage error is all there is. -/
def EndsFrom (usage : Prop) (t0 t : List Event) : Prop :=
  ∃ mid tail, t = t0 ++ mid ++ tail ∧
    (∀ ev ∈ mid, ev.isLogout = false ∧ ev.isAbort = false) ∧
    ((¬ usage ∧ (∀ ev ∈ mid, ev.failed = false) ∧
        (tail = [Event.Logout none] ∨
          ∃ e, tail = [Event.Logout (some e), Event.Fatal (lit "Logout failed: " ++ e)])) ∨
      (∃ msg mid0 f, tail = [Event.Fatal msg] ∧ mid = mid0 ++ [f] ∧ f.failed = true) ∨
      (usage ∧ mid = [] ∧ ∃ msg, tail = [Event.UsageError msg]))

/-! ## Sample clients, hosts and inputs -/

/-- A client all of whose calls succeed; it has no shares. -/
def okClient : Client :=
  Client.mk (fun _ _ _ => none) (fun _ => ([], none)) (fun _ _ => none) (fun _ _ _ => none)
    (fun _ => none)

/-- A client whose `ListShares` fails with the given error; every other call
succeeds. -/
def listFailsClient (e : GoString) : Client :=
  Client.mk (fun _ _ _ => none) (fun _ => ([], some e)) (fun _ _ => none) (fun _ _ _ => none)
    (fun _ => none)

/-- A client that lists the given shares; every call succeeds. -/
def listingClient (shares : List Share) : Client :=
  Client.mk (fun _ _ _ => none) (fun _ => (shares, none)) (fun _ _ => none) (fun _ _ _ => none)
    (fun _ => none)

/-- A client whose `UnlockShare` fails with `e` for the share called `name` and
succeeds for every other share; every other call succeeds. -/
def unlockFailsOn (name e : GoString) : Client :=
  Client.mk (fun _ _ _ => none) (fun _ => ([], none)) (fun _ _ => none)
    (fun _ n _ => if n = name then some e else none) (fun _ => none)

/-- A host whose decoder answers `d`; to be used with a stdin that holds a
document which `encoding/json` decodes to `d`. -/
def hostOf (d : Decoded) : Host := Host.mk (fun _ => d) true

/-- Three unlock requests. -/
def requestsABC : List ShareInfo :=
  [ShareInfo.mk (lit "a") (lit "p1"), ShareInfo.mk (lit "b") (lit "p2"),
    ShareInfo.mk (lit "c") (lit "p3")]

/-- The manifest of `requestsABC`. -/
def manifestABC : GoString :=
  lit ("[\x7b\"Name\":\"a\",\"Password\":\"p1\"\x7d,\x7b\"Name\":\"b\",\"Password\":\"p2\"\x7d," ++
    "\x7b\"Name\":\"c\",\"Password\":\"p3\"\x7d]")

/-- The two requests of the scenario of the specification. -/
def requestsAB : List ShareInfo :=
  [ShareInfo.mk (lit "a") (lit "p1"), ShareInfo.mk (lit "b") (lit "p2")]

/-- The manifest of `requestsAB`. -/
def manifestAB : GoString :=
  lit "[\x7b\"Name\":\"a\",\"Password\":\"p1\"\x7d,\x7b\"Name\":\"b\",\"Password\":\"p2\"\x7d]"

/-- A manifest cut off in the middle of its first entry.  On it `Decode` returns
`io.ErrUnexpectedEOF`, whose text is "unexpected EOF" and which is not a
`*json.SyntaxError`. -/
def truncatedManifest : GoString := lit "[\x7b\"Name\":\"a\""

/-- What `Decode` returns on `truncatedManifest`. -/
def truncatedDecoded : Decoded := Decoded.error (DecodeError.other (lit "unexpected EOF"))

/-- A manifest with a stray character.  On it `Decode` returns a
`*json.SyntaxError` with `Offset` 2. -/
def strayManifest : GoString := lit "[x"

/-- What `Decode` returns on `strayManifest`. -/
def strayDecoded : Decoded :=
  Decoded.error (DecodeError.SyntaxError
    (lit "invalid character 'x' looking for beginning of value") 2)

/-- A well-formed manifest whose only entry has an empty name and an empty
password. -/
def emptyFieldsManifest : GoString := lit "[\x7b\"Name\":\"\",\"Password\":\"\"\x7d]"

/-- What `Decode` returns on `emptyFieldsManifest`. -/
def emptyFieldsDecoded : Decoded := Decoded.ok [ShareInfo.mk [] []]

/-- Two shares, as a NAS could list them. -/
def sampleShares : List Share :=
  [Share.mk (lit "vault") (lit "encrypted") (lit "secure"),
    Share.mk (lit "media") (lit "none") []]

/-- The command line `list`. -/
def listArgs : Args := Args.mk (lit "list") [] [] false

/-! ## Reading the password -/

theorem ReadString_split (d : UInt8) (s rest : GoString) (h : d ∉ s) :
    ReadString d (s ++ d :: rest) = (s ++ [d], false) := by
  induction s with
  | nil => simp [ReadString]
  | cons b s ih =>
    have hb : b ≠ d := fun hbd => h (by simp [hbd])
    have hs : d ∉ s := fun hm => h (List.mem_cons_of_mem _ hm)
    simp [ReadString, hb, ih hs]

theorem ReadString_eof (d : UInt8) (s : GoString) (h : d ∉ s) :
    ReadString d s = (s, true) := by
  induction s with
  | nil => simp [ReadString]
  | cons b s ih =>
    have hb : b ≠ d := fun hbd => h (by simp [hbd])
    have hs : d ∉ s := fun hm => h (List.mem_cons_of_mem _ hm)
    simp [ReadString, hb, ih hs]

theorem split_at_first (d : UInt8) (input : GoString) :
    d ∉ input ∨ ∃ s rest, d ∉ s ∧ input = s ++ d :: rest := by
  induction input with
  | nil => left; simp
  | cons b l ih =>
    by_cases hb : b = d
    · right; exact ⟨[], l, by simp, by simp [hb]⟩
    · rcases ih with h | ⟨s, rest, hs, hl⟩
      · left
        intro hm
        rcases List.mem_cons.mp hm with h1 | h1
        · exact hb h1.symm
        · exact h h1
      · right
        refine ⟨b :: s, rest, ?_, by simp [hl]⟩
        intro hm
        rcases List.mem_cons.mp hm with h1 | h1
        · exact hb h1.symm
        · exact hs h1

theorem split_unique (d : UInt8) (s s2 rest rest2 : GoString) (h : d ∉ s) (h2 : d ∉ s2)
    (heq : s ++ d :: rest = s2 ++ d :: rest2) : s = s2 := by
  have e1 := ReadString_split d s rest h
  have e2 := ReadString_split d s2 rest2 h2
  rw [heq, e2] at e1
  have := congrArg Prod.fst e1
  simpa using this.symm

theorem TrimRight_concat (d : UInt8) (s : GoString) (h : d ∉ s) :
    TrimRight (s ++ [d]) d = s := by
  unfold TrimRight
  rw [List.rdropWhile_concat_pos _ _ _ (by simp)]
  rw [List.rdropWhile_eq_self_iff]
  intro hl hlast
  apply h
  have : s.getLast hl = d := by simpa using hlast
  rw [← this]
  exact List.getLast_mem hl

theorem readPassword_eof (stdin : GoString) (t : List Event) (h : (10 : UInt8) ∉ stdin) :
    readPassword stdin t = Res.exit (t ++ [Event.ReadString stdin true,
      Event.Fatal (lit "Failed to read password")]) := by
  simp [readPassword, ReadString_eof 10 stdin h]

theorem readPassword_line (s rest : GoString) (t : List Event) (h : (10 : UInt8) ∉ s) :
    readPassword (s ++ 10 :: rest) t =
      if s = [] then
        Res.exit (t ++ [Event.ReadString [10] false, Event.Fatal (lit "Failed to read password")])
      else Res.ret s (t ++ [Event.ReadString (s ++ [10]) false]) := by
  simp only [readPassword, ReadString_split 10 s rest h, TrimRight_concat 10 s h]
  by_cases hs : s = []
  · simp [hs]
  · simp [hs]

theorem readPassword_ret (stdin : GoString) (t t1 : List Event) (s : GoString)
    (h : readPassword stdin t = Res.ret s t1) :
    s ≠ [] ∧ (10 : UInt8) ∉ s ∧ (∃ rest, stdin = s ++ 10 :: rest) ∧
      t1 = t ++ [Event.ReadString (s ++ [10]) false] := by
  rcases split_at_first 10 stdin with h0 | ⟨s0, rest0, hs0, hin⟩
  · rw [readPassword_eof stdin t h0] at h
    cases h
  · subst hin
    rw [readPassword_line s0 rest0 t hs0] at h
    by_cases he : s0 = []
    · simp [he] at h
    · simp only [he, if_false] at h
      injection h with h1 h2
      subst h1
      exact ⟨he, hs0, ⟨rest0, rfl⟩, h2.symm⟩

/-- C10: `readPassword` returns `s` exactly when stdin starts with `s` followed by
a newline, `s` being non-empty and free of newlines (the read line is then the
only event); on every other stdin the process ends with the fatal message
"Failed to read password". -/
theorem readPassword_spec (stdin : GoString) (t : List Event) :
    (∀ s t1, readPassword stdin t = Res.ret s t1 ↔
      (s ≠ [] ∧ (10 : UInt8) ∉ s ∧ (∃ rest, stdin = s ++ 10 :: rest) ∧
        t1 = t ++ [Event.ReadString (s ++ [10]) false])) ∧
    ((¬ ∃ s rest, s ≠ [] ∧ (10 : UInt8) ∉ s ∧ stdin = s ++ 10 :: rest) →
      ∃ pass err, readPassword stdin t =
        Res.exit (t ++ [Event.ReadString pass err, Event.Fatal (lit "Failed to read password")])) := by
  rcases split_at_first 10 stdin with h | ⟨s0, rest0, hs0, hin⟩
  · constructor
    · intro s t1
      rw [readPassword_eof stdin t h]
      constructor
      · intro hc; cases hc
      · rintro ⟨_, _, ⟨rest, hr⟩, _⟩
        exact absurd (by simp [hr]) h
    · intro _
      exact ⟨stdin, true, readPassword_eof stdin t h⟩
  · subst hin
    rw [readPassword_line s0 rest0 t hs0]
    by_cases he : s0 = []
    · subst he
      constructor
      · intro s t1
        constructor
        · intro hc; simp at hc
        · rintro ⟨hne, hns, ⟨rest, hr⟩, _⟩
          have := split_unique 10 [] s rest0 rest (by simp) hns hr
          exact absurd this.symm hne
      · intro _
        exact ⟨[10], false, by simp⟩
    · constructor
      · intro s t1
        simp only [he, if_false]
        constructor
        · intro hc
          injection hc with h1 h2
          subst h1
          exact ⟨he, hs0, ⟨rest0, rfl⟩, h2.symm⟩
        · rintro ⟨hne, hns, ⟨rest, hr⟩, ht⟩
          have := split_unique 10 s0 s rest0 rest hs0 hns hr
          subst this
          rw [ht]
      · intro hno
        exact absurd ⟨s0, rest0, he, hs0, rfl⟩ hno


/-! ## Listing -/

theorem lit_tab : lit "\t" = [9] := by decide

theorem lit_newline : lit "\n" = [10] := by decide

theorem listShares_loop_eq (shares : List Share) (t : List Event) :
    listShares.loop shares t = t ++ shares.map (fun share => Event.TabWrite (shareRow share)) := by
  induction shares generalizing t with
  | nil => simp [listShares.loop]
  | cons share rest ih =>
    simp [listShares.loop, ih, shareRow, lit_tab, lit_newline]

theorem tabWrites_append (a b : List Event) : tabWrites (a ++ b) = tabWrites a ++ tabWrites b := by
  simp [tabWrites, List.filterMap_append]

theorem tabWrites_rows (shares : List Share) :
    tabWrites (shares.map (fun share => Event.TabWrite (shareRow share))) = shares.map shareRow := by
  induction shares with
  | nil => rfl
  | cons share rest ih =>
    simp only [List.map_cons]
    rw [← ih]
    rfl

theorem tabWrites_logoutShare (client : Client) (t : List Event) :
    tabWrites (logoutShare client t).trace = tabWrites t := by
  unfold logoutShare
  cases client.Logout t <;> simp [Res.trace, tabWrites, List.filterMap_append]

/-- C6: when `client.ListShares` returns `shares` without error, the rows that
`listShares` writes are exactly one per share, in the order of `shares`, each
row being the Name, Encryption and Description joined by tabs and ended by a
newline. -/
theorem listShares_rows (client : Client) (t : List Event) (shares : List Share)
    (h : client.ListShares t = (shares, none)) :
    tabWrites (listShares client t).trace = tabWrites t ++ shares.map shareRow := by
  unfold listShares
  simp only [h]
  rw [tabWrites_logoutShare, listShares_loop_eq]
  simp only [tabWrites_append, tabWrites_rows]
  simp [tabWrites]

/-! ## The unlock loop -/

theorem okEvents_take_succ (share : ShareInfo) (rest : List ShareInfo) (j : Nat) :
    okEvents ((share :: rest).take (j + 1)) =
      Event.UnlockShare share.Name share.Password none :: okEvents (rest.take j) := by
  simp [okEvents]

theorem loop_ok (client : Client) (reqs : List ShareInfo) (t : List Event)
    (h : ∀ j r, reqs[j]? = some r →
      client.UnlockShare (t ++ okEvents (reqs.take j)) r.Name r.Password = none) :
    unlockShare.loop client reqs t = Res.ret () (t ++ okEvents reqs) := by
  induction reqs generalizing t with
  | nil => simp [unlockShare.loop, okEvents]
  | cons share rest ih =>
    have h0 := h 0 share (by simp)
    simp only [List.take_zero, okEvents, List.map_nil, List.append_nil] at h0
    unfold unlockShare.loop
    simp only [h0]
    rw [ih]
    · simp [okEvents]
    · intro j r hj
      have := h (j + 1) r (by simpa using hj)
      rw [okEvents_take_succ] at this
      simpa using this

theorem loop_fail (client : Client) (reqs : List ShareInfo) (t : List Event) (i : Nat)
    (r : ShareInfo) (e : GoString) (hi : reqs[i]? = some r)
    (hok : ∀ j q, j < i → reqs[j]? = some q →
      client.UnlockShare (t ++ okEvents (reqs.take j)) q.Name q.Password = none)
    (herr : client.UnlockShare (t ++ okEvents (reqs.take i)) r.Name r.Password = some e) :
    unlockShare.loop client reqs t =
      Res.exit (t ++ okEvents (reqs.take i) ++ [Event.UnlockShare r.Name r.Password (some e),
        Event.Fatal (lit "Unlocking share '" ++ r.Name ++ lit "' failed: " ++ e
          ++ lit ". Aborting.")]) := by
  induction reqs generalizing t i with
  | nil => simp at hi
  | cons share rest ih =>
    cases i with
    | zero =>
      simp only [List.getElem?_cons_zero, Option.some.injEq] at hi
      subst hi
      simp only [List.take_zero, okEvents, List.map_nil, List.append_nil] at herr
      unfold unlockShare.loop
      simp [herr, okEvents]
    | succ k =>
      have h0 := hok 0 share (Nat.succ_pos k) (by simp)
      simp only [List.take_zero, okEvents, List.map_nil, List.append_nil] at h0
      unfold unlockShare.loop
      simp only [h0]
      rw [ih (t ++ [Event.UnlockShare share.Name share.Password none]) k
        (by simpa using hi)]
      · rw [okEvents_take_succ]
        simp
      · intro j q hj hq
        have := hok (j + 1) q (Nat.succ_lt_succ hj) (by simpa using hq)
        rw [okEvents_take_succ] at this
        simpa using this
      · rw [okEvents_take_succ] at herr
        simpa using herr

theorem loop_cases (client : Client) (reqs : List ShareInfo) (t : List Event) :
    unlockShare.loop client reqs t = Res.ret () (t ++ okEvents reqs) ∨
    ∃ i r e, reqs[i]? = some r ∧ unlockShare.loop client reqs t =
      Res.exit (t ++ okEvents (reqs.take i) ++ [Event.UnlockShare r.Name r.Password (some e),
        Event.Fatal (lit "Unlocking share '" ++ r.Name ++ lit "' failed: " ++ e
          ++ lit ". Aborting.")]) := by
  induction reqs generalizing t with
  | nil => left; simp [unlockShare.loop, okEvents]
  | cons share rest ih =>
    unfold unlockShare.loop
    cases hc : client.UnlockShare t share.Name share.Password with
    | some e =>
      right
      exact ⟨0, share, e, by simp, by simp [okEvents]⟩
    | none =>
      simp only []
      rcases ih (t ++ [Event.UnlockShare share.Name share.Password none]) with h | ⟨i, r, e, hi, h⟩
      · left
        rw [h]
        simp [okEvents]
      · right
        refine ⟨i + 1, r, e, by simpa using hi, ?_⟩
        rw [h, okEvents_take_succ]
        simp


/-! ## Unlocking -/

theorem unlockCalls_append (a b : List Event) :
    unlockCalls (a ++ b) = unlockCalls a ++ unlockCalls b := by
  simp [unlockCalls, List.filterMap_append]

theorem fatalMsgs_append (a b : List Event) :
    fatalMsgs (a ++ b) = fatalMsgs a ++ fatalMsgs b := by
  simp [fatalMsgs, List.filterMap_append]

theorem unlockCalls_okEvents (reqs : List ShareInfo) :
    unlockCalls (okEvents reqs) = reqs.map (fun q => (q.Name, q.Password)) := by
  induction reqs with
  | nil => rfl
  | cons share rest ih =>
    simp only [List.map_cons]
    rw [← ih]
    rfl

theorem fatalMsgs_okEvents (reqs : List ShareInfo) : fatalMsgs (okEvents reqs) = [] := by
  induction reqs with
  | nil => rfl
  | cons share rest ih =>
    have : okEvents (share :: rest) =
        [Event.UnlockShare share.Name share.Password none] ++ okEvents rest := rfl
    rw [this, fatalMsgs_append, ih]
    rfl

/-- How `passList` can come out of lines 86-108: decoded from the manifest, or
the single request made of the share name and the password read. -/
theorem passList_ret (host : Host) (shareName : GoString) (batch : Bool) (stdin : GoString)
    (t0 t1 : List Event) (reqs : List ShareInfo)
    (h : unlockShare.passList host shareName batch stdin t0 = Res.ret (some reqs) t1) :
    (batch = true ∧ host.Decode stdin = Decoded.ok reqs ∧
      t1 = t0 ++ [Event.Decode (Decoded.ok reqs)]) ∨
    (batch = false ∧ shareName ≠ [] ∧ ∃ pass, pass ≠ [] ∧ reqs = [ShareInfo.mk shareName pass] ∧
      t1 = t0 ++ [Event.Stderr (lit "Enter password (passing via stdin is also ok):\n"),
        Event.ReadString (pass ++ [10]) false]) := by
  unfold unlockShare.passList at h
  cases batch with
  | true =>
    left
    simp only [if_true] at h
    cases hd : host.Decode stdin with
    | ok l =>
      rw [hd] at h
      simp only [Res.ret.injEq, Option.some.injEq] at h
      obtain ⟨h1, h2⟩ := h
      subst h1
      exact ⟨rfl, rfl, h2.symm⟩
    | error err =>
      rw [hd] at h
      cases err <;> simp at h
  | false =>
    right
    simp only [Bool.false_eq_true, if_false] at h
    by_cases hn : shareName = []
    · simp only [hn, if_true] at h
      split at h <;> simp at h
    · simp only [hn, if_false] at h
      refine ⟨rfl, hn, ?_⟩
      cases hr : readPassword stdin
          (t0 ++ [Event.Stderr (lit "Enter password (passing via stdin is also ok):\n")]) with
      | exit t2 => rw [hr] at h; simp at h
      | ret pass t2 =>
        rw [hr] at h
        simp only [Res.ret.injEq, Option.some.injEq] at h
        obtain ⟨h1, h2⟩ := h
        have hp := readPassword_ret stdin _ t2 pass hr
        refine ⟨pass, hp.1, h1.symm, ?_⟩
        rw [← h2, hp.2.2.2]
        simp

theorem passList_ret_unlockCalls (host : Host) (shareName : GoString) (batch : Bool)
    (stdin : GoString) (t0 t1 : List Event) (reqs : List ShareInfo)
    (h : unlockShare.passList host shareName batch stdin t0 = Res.ret (some reqs) t1) :
    unlockCalls t1 = unlockCalls t0 ∧ fatalMsgs t1 = fatalMsgs t0 := by
  rcases passList_ret host shareName batch stdin t0 t1 reqs h with ⟨_, _, ht⟩ | ⟨_, _, pass, _, _, ht⟩
  · subst ht
    simp [unlockCalls, fatalMsgs, List.filterMap_append]
  · subst ht
    simp [unlockCalls, fatalMsgs, List.filterMap_append]

/-- The whole trace of `unlockShare` when request `i` is the first to fail. -/
theorem unlockShare_fail_trace (host : Host) (client : Client) (shareName : GoString)
    (batch : Bool) (stdin : GoString) (t0 t1 : List Event) (reqs : List ShareInfo) (i : Nat)
    (r : ShareInfo) (e : GoString)
    (hlist : unlockShare.passList host shareName batch stdin t0 = Res.ret (some reqs) t1)
    (hi : reqs[i]? = some r)
    (hok : ∀ j q, j < i → reqs[j]? = some q →
      client.UnlockShare (t1 ++ okEvents (reqs.take j)) q.Name q.Password = none)
    (herr : client.UnlockShare (t1 ++ okEvents (reqs.take i)) r.Name r.Password = some e) :
    unlockShare host client shareName batch stdin t0 =
      Res.exit (t1 ++ okEvents (reqs.take i) ++ [Event.UnlockShare r.Name r.Password (some e),
        Event.Fatal (lit "Unlocking share '" ++ r.Name ++ lit "' failed: " ++ e
          ++ lit ". Aborting.")]) := by
  unfold unlockShare
  rw [hlist]
  simp only []
  rw [loop_fail client reqs t1 i r e hi hok herr]

/-- C1: when request `i` is the first whose `UnlockShare` call returns an error,
`unlockShare` ends the process having issued `UnlockShare` exactly for the
requests `0..i`, once each, in list order, with each request's Name and
Password, and for no later request. -/
theorem unlockShare_stops_at_first_failure (host : Host) (client : Client)
    (shareName : GoString) (batch : Bool) (stdin : GoString) (t0 t1 : List Event)
    (reqs : List ShareInfo) (i : Nat) (r : ShareInfo) (e : GoString)
    (hlist : unlockShare.passList host shareName batch stdin t0 = Res.ret (some reqs) t1)
    (hi : reqs[i]? = some r)
    (hok : ∀ j q, j < i → reqs[j]? = some q →
      client.UnlockShare (t1 ++ okEvents (reqs.take j)) q.Name q.Password = none)
    (herr : client.UnlockShare (t1 ++ okEvents (reqs.take i)) r.Name r.Password = some e) :
    ∃ t, unlockShare host client shareName batch stdin t0 = Res.exit t ∧
      unlockCalls t = unlockCalls t0 ++ (reqs.take (i + 1)).map (fun q => (q.Name, q.Password)) := by
  refine ⟨_, unlockShare_fail_trace host client shareName batch stdin t0 t1 reqs i r e
    hlist hi hok herr, ?_⟩
  rw [unlockCalls_append, unlockCalls_append, unlockCalls_okEvents,
    (passList_ret_unlockCalls host shareName batch stdin t0 t1 reqs hlist).1,
    List.take_succ, hi]
  simp [unlockCalls]

/-- C5: when request `i` is the first whose `UnlockShare` call fails, with error
`e`, the process ends with exactly one fatal message,
"Unlocking share '<Name of request i>' failed: <e>. Aborting.". -/
theorem unlockShare_failure_message (host : Host) (client : Client)
    (shareName : GoString) (batch : Bool) (stdin : GoString) (t0 t1 : List Event)
    (reqs : List ShareInfo) (i : Nat) (r : ShareInfo) (e : GoString)
    (hlist : unlockShare.passList host shareName batch stdin t0 = Res.ret (some reqs) t1)
    (hi : reqs[i]? = some r)
    (hok : ∀ j q, j < i → reqs[j]? = some q →
      client.UnlockShare (t1 ++ okEvents (reqs.take j)) q.Name q.Password = none)
    (herr : client.UnlockShare (t1 ++ okEvents (reqs.take i)) r.Name r.Password = some e) :
    ∃ t, unlockShare host client shareName batch stdin t0 = Res.exit t ∧
      fatalMsgs t = fatalMsgs t0 ++
        [lit "Unlocking share '" ++ r.Name ++ lit "' failed: " ++ e ++ lit ". Aborting."] ∧
      t.getLast? = some (Event.Fatal
        (lit "Unlocking share '" ++ r.Name ++ lit "' failed: " ++ e ++ lit ". Aborting.")) := by
  refine ⟨_, unlockShare_fail_trace host client shareName batch stdin t0 t1 reqs i r e
    hlist hi hok herr, ?_, ?_⟩
  · rw [fatalMsgs_append, fatalMsgs_append, fatalMsgs_okEvents,
      (passList_ret_unlockCalls host shareName batch stdin t0 t1 reqs hlist).2]
    simp [fatalMsgs]
  · simp [List.getLast?_append]

/-- C3: in batch mode, when decoding stdin returns an error, the process ends
with a fatal message right after the decode and no `UnlockShare` call is
issued. -/
theorem unlockShare_decode_error (host : Host) (client : Client) (shareName stdin : GoString)
    (t : List Event) (err : DecodeError) (h : host.Decode stdin = Decoded.error err) :
    (∃ msg, unlockShare host client shareName true stdin t =
      Res.exit (t ++ [Event.Decode (Decoded.error err), Event.Fatal msg])) ∧
    unlockCalls (unlockShare host client shareName true stdin t).trace = unlockCalls t := by
  cases err with
  | SyntaxError m off =>
    have he : unlockShare host client shareName true stdin t =
        Res.exit (t ++ [Event.Decode (Decoded.error (DecodeError.SyntaxError m off)),
          Event.Fatal (lit "Failed to decode JSON: " ++ m ++ lit " (offset " ++ fmtInt off
            ++ lit ")")]) := by
      simp [unlockShare, unlockShare.passList, h]
    exact ⟨⟨_, he⟩, by rw [he]; simp [Res.trace, unlockCalls, List.filterMap_append]⟩
  | other m =>
    have he : unlockShare host client shareName true stdin t =
        Res.exit (t ++ [Event.Decode (Decoded.error (DecodeError.other m)),
          Event.Fatal (lit "Failed to decode JSON: " ++ m)]) := by
      simp [unlockShare, unlockShare.passList, h]
    exact ⟨⟨_, he⟩, by rw [he]; simp [Res.trace, unlockCalls, List.filterMap_append]⟩

/-- C8: with the batch flag unset and an empty share name, `unlockShare` reports
the usage error and does nothing else: the usage error is the only event, so
nothing is read from stdin and no client call is issued. -/
theorem unlockShare_usage_error (host : Host) (client : Client) (stdin : GoString)
    (t : List Event) :
    (unlockShare host client [] false stdin t).trace =
      t ++ [Event.UsageError (lit "Please provide either a shareName or --batch. Nothing to do.")] := by
  unfold unlockShare unlockShare.passList
  cases host.UsageErrorfExits <;> simp [Res.trace]


/-! ## How a command ends -/

theorem logoutShare_ends (usage : Prop) (hu : ¬ usage) (client : Client)
    (t0 mid : List Event)
    (hmid : ∀ ev ∈ mid, ev.isLogout = false ∧ ev.isAbort = false)
    (hok : ∀ ev ∈ mid, ev.failed = false) :
    EndsFrom usage t0 (logoutShare client (t0 ++ mid)).trace := by
  unfold logoutShare
  cases hl : client.Logout (t0 ++ mid) with
  | none =>
    exact ⟨mid, [Event.Logout none], by simp [Res.trace], hmid, Or.inl ⟨hu, hok, Or.inl rfl⟩⟩
  | some e =>
    exact ⟨mid, [Event.Logout (some e), Event.Fatal (lit "Logout failed: " ++ e)],
      by simp [Res.trace], hmid, Or.inl ⟨hu, hok, Or.inr ⟨e, rfl⟩⟩⟩

theorem fatal_ends (usage : Prop) (t0 mid0 : List Event) (f : Event) (msg : GoString)
    (hmid : ∀ x ∈ mid0 ++ [f], x.isLogout = false ∧ x.isAbort = false)
    (hf : f.failed = true) :
    EndsFrom usage t0 (t0 ++ (mid0 ++ [f]) ++ [Event.Fatal msg]) :=
  ⟨mid0 ++ [f], [Event.Fatal msg], rfl, hmid, Or.inr (Or.inl ⟨msg, mid0, f, rfl, rfl, hf⟩)⟩

theorem EndsFrom_congr (p q : Prop) (h : p ↔ q) (t0 t : List Event)
    (he : EndsFrom p t0 t) : EndsFrom q t0 t := by
  obtain ⟨mid, tail, ht, hmid, hcase⟩ := he
  refine ⟨mid, tail, ht, hmid, ?_⟩
  rcases hcase with ⟨hu, h1⟩ | h2 | ⟨hu, h3⟩
  · exact Or.inl ⟨fun hq => hu (h.mpr hq), h1⟩
  · exact Or.inr (Or.inl h2)
  · exact Or.inr (Or.inr ⟨h.mp hu, h3⟩)

theorem listShares_ends (usage : Prop) (hu : ¬ usage) (client : Client) (t0 : List Event) :
    EndsFrom usage t0 (listShares client t0).trace := by
  unfold listShares
  rcases hc : client.ListShares t0 with ⟨shares, err⟩
  cases err with
  | some e =>
    simp only [Res.trace]
    have := fatal_ends usage t0 [] (Event.ListShares shares (some e)) e ?_ rfl
    · simpa using this
    · intro x hx
      simp only [List.nil_append, List.mem_singleton] at hx
      subst hx
      exact ⟨rfl, rfl⟩
  | none =>
    simp only []
    rw [listShares_loop_eq]
    have := logoutShare_ends usage hu client t0
      ([Event.ListShares shares none] ++
        shares.map (fun share => Event.TabWrite (shareRow share)) ++
        [Event.TabFlush]) ?_ ?_
    · simpa [List.append_assoc] using this
    · intro ev hev
      simp only [List.mem_append, List.mem_singleton, List.mem_map] at hev
      rcases hev with (h | ⟨sh, _, h⟩) | h <;> subst h <;> exact ⟨rfl, rfl⟩
    · intro ev hev
      simp only [List.mem_append, List.mem_singleton, List.mem_map] at hev
      rcases hev with (h | ⟨sh, _, h⟩) | h <;> subst h <;> rfl

theorem lockShare_ends (usage : Prop) (hu : ¬ usage) (client : Client)
    (shareName : GoString) (t0 : List Event) :
    EndsFrom usage t0 (lockShare client shareName t0).trace := by
  unfold lockShare
  cases hr : client.LockShare t0 shareName with
  | some e =>
    simp only [Res.trace]
    have := fatal_ends usage t0 [] (Event.LockShare shareName (some e))
      (lit "Locking failed: " ++ e) ?_ rfl
    · simpa using this
    · intro x hx
      simp only [List.nil_append, List.mem_singleton] at hx
      subst hx
      exact ⟨rfl, rfl⟩
  | none =>
    simp only []
    apply logoutShare_ends usage hu
    · intro ev hev
      simp only [List.mem_singleton] at hev
      subst hev
      exact ⟨rfl, rfl⟩
    · intro ev hev
      simp only [List.mem_singleton] at hev
      subst hev
      rfl

theorem okEvents_clean (reqs : List ShareInfo) :
    ∀ ev ∈ okEvents reqs, ev.isLogout = false ∧ ev.isAbort = false ∧ ev.failed = false := by
  intro ev hev
  simp only [okEvents, List.mem_map] at hev
  obtain ⟨q, _, h⟩ := hev
  subst h
  exact ⟨rfl, rfl, rfl⟩

/-- The outcomes of lines 86-108.  Before the outcome there is only a decode, or
the prompt and a read.  The outcome is a list of requests, nothing having
failed; or a fatal message right after the decode or the read that failed; or,
when there is nothing to do, the usage error alone. -/
theorem passList_cases (host : Host) (shareName : GoString) (batch : Bool) (stdin : GoString)
    (t0 : List Event) :
    ∃ m, (∀ ev ∈ m, ev.isLogout = false ∧ ev.isAbort = false ∧ ev.isShareOp = false) ∧
      ((¬ (batch = false ∧ shareName = []) ∧ (∀ ev ∈ m, ev.failed = false) ∧
          ∃ reqs, unlockShare.passList host shareName batch stdin t0 =
            Res.ret (some reqs) (t0 ++ m)) ∨
       (∃ msg m0 f, m = m0 ++ [f] ∧ f.failed = true ∧
          unlockShare.passList host shareName batch stdin t0 =
            Res.exit (t0 ++ m ++ [Event.Fatal msg])) ∨
       ((batch = false ∧ shareName = []) ∧ m = [] ∧ ∃ msg,
          (unlockShare.passList host shareName batch stdin t0 =
              Res.exit (t0 ++ [Event.UsageError msg]) ∨
           unlockShare.passList host shareName batch stdin t0 =
              Res.ret none (t0 ++ [Event.UsageError msg])))) := by
  unfold unlockShare.passList
  cases batch with
  | true =>
    refine ⟨[Event.Decode (host.Decode stdin)], ?_, ?_⟩
    · intro ev hev
      simp only [List.mem_singleton] at hev
      subst hev
      exact ⟨rfl, rfl, rfl⟩
    · simp only [if_true]
      cases hd : host.Decode stdin with
      | ok l =>
        left
        refine ⟨by simp, ?_, l, rfl⟩
        intro ev hev
        simp only [List.mem_singleton] at hev
        subst hev
        rfl
      | error err =>
        right; left
        cases err with
        | SyntaxError m off =>
          exact ⟨lit "Failed to decode JSON: " ++ m ++ lit " (offset "
            ++ fmtInt off ++ lit ")", [], _, rfl, rfl, rfl⟩
        | other m =>
          exact ⟨lit "Failed to decode JSON: " ++ m, [], _, rfl, rfl, rfl⟩
  | false =>
    simp only [Bool.false_eq_true, if_false]
    by_cases hn : shareName = []
    · refine ⟨[], by simp, Or.inr (Or.inr ⟨⟨trivial, hn⟩, rfl,
        lit "Please provide either a shareName or --batch. Nothing to do.", ?_⟩)⟩
      simp only [hn, if_true]
      cases host.UsageErrorfExits
      · right; simp
      · left; simp
    · simp only [hn, if_false]
      refine ⟨[Event.Stderr (lit "Enter password (passing via stdin is also ok):\n"),
        Event.ReadString (ReadString 10 stdin).1 (ReadString 10 stdin).2], ?_, ?_⟩
      · intro ev hev
        simp only [List.mem_cons, List.mem_singleton, List.not_mem_nil, or_false] at hev
        rcases hev with h | h <;> subst h <;> exact ⟨rfl, rfl, rfl⟩
      · unfold readPassword
        simp only []
        split_ifs with hc
        · right; left
          refine ⟨lit "Failed to read password",
            [Event.Stderr (lit "Enter password (passing via stdin is also ok):\n")],
            Event.ReadString (ReadString 10 stdin).1 (ReadString 10 stdin).2, rfl, ?_, by simp⟩
          simpa [Event.failed] using hc
        · left
          refine ⟨fun h => h.2, ?_,
            [ShareInfo.mk shareName (TrimRight (ReadString 10 stdin).1 10)], by simp⟩
          intro ev hev
          simp only [List.mem_cons, List.mem_singleton, List.not_mem_nil, or_false] at hev
          rcases hev with h | h
          · subst h; rfl
          · subst h
            simpa [Event.failed] using hc

theorem unlockShare_ends (host : Host) (client : Client) (shareName : GoString) (batch : Bool)
    (stdin : GoString) (t0 : List Event) :
    EndsFrom (batch = false ∧ shareName = []) t0
      (unlockShare host client shareName batch stdin t0).trace := by
  obtain ⟨m, hm, hcase⟩ := passList_cases host shareName batch stdin t0
  have hm2 : ∀ ev ∈ m, ev.isLogout = false ∧ ev.isAbort = false :=
    fun ev hev => ⟨(hm ev hev).1, (hm ev hev).2.1⟩
  unfold unlockShare
  rcases hcase with ⟨hu, hok, reqs, hp⟩ | ⟨msg, m0, f, hmf, hf, hp⟩ | ⟨hu, hmn, msg, hp | hp⟩
  · rw [hp]
    simp only []
    rcases loop_cases client reqs (t0 ++ m) with hl | ⟨i, r, e, hi, hl⟩
    · rw [hl]
      simp only []
      have := logoutShare_ends _ hu client t0 (m ++ okEvents reqs) ?_ ?_
      · simpa [List.append_assoc] using this
      · intro x hx
        rcases List.mem_append.mp hx with h | h
        · exact hm2 x h
        · exact ⟨(okEvents_clean reqs x h).1, (okEvents_clean reqs x h).2.1⟩
      · intro x hx
        rcases List.mem_append.mp hx with h | h
        · exact hok x h
        · exact (okEvents_clean reqs x h).2.2
    · rw [hl]
      simp only [Res.trace]
      have := fatal_ends (batch = false ∧ shareName = []) t0
        (m ++ okEvents (reqs.take i)) (Event.UnlockShare r.Name r.Password (some e))
        (lit "Unlocking share '" ++ r.Name ++ lit "' failed: " ++ e
          ++ lit ". Aborting.") ?_ rfl
      · simpa [List.append_assoc] using this
      · intro x hx
        rcases List.mem_append.mp hx with h | h
        · rcases List.mem_append.mp h with h | h
          · exact hm2 x h
          · exact ⟨(okEvents_clean _ x h).1, (okEvents_clean _ x h).2.1⟩
        · simp only [List.mem_singleton] at h
          subst h
          exact ⟨rfl, rfl⟩
  · rw [hp]
    simp only [Res.trace]
    subst hmf
    exact fatal_ends _ t0 m0 f msg hm2 hf
  · rw [hp]
    exact ⟨[], [Event.UsageError msg], by simp [Res.trace], by simp,
      Or.inr (Or.inr ⟨hu, rfl, msg, rfl⟩)⟩
  · rw [hp]
    exact ⟨[], [Event.UsageError msg], by simp [Res.trace], by simp,
      Or.inr (Or.inr ⟨hu, rfl, msg, rfl⟩)⟩

/-! ## The whole run -/

theorem main_login_error (host : Host) (client : Client) (user password : GoString)
    (args : Args) (stdin : GoString) (e : GoString)
    (h : client.Login [] user password = some e) :
    main host client user password args stdin =
      Res.exit [Event.Login user password (some e), Event.Fatal e] := by
  simp [main, h]

theorem main_ends (host : Host) (client : Client) (user password : GoString)
    (args : Args) (stdin : GoString)
    (hcmd : args.command = lit "list" ∨ args.command = lit "lock" ∨
      args.command = lit "unlock" ∨ args.command = lit "logout")
    (hlogin : client.Login [] user password = none) :
    EndsFrom args.nothingToDo [Event.Login user password none]
      (main host client user password args stdin).trace := by
  unfold main
  simp only [hlogin]
  by_cases h1 : args.command = lit "list"
  · simp only [h1, if_true]
    refine listShares_ends _ ?_ client _
    intro hu
    have := hu.1
    rw [h1] at this
    exact absurd this (by decide)
  · by_cases h2 : args.command = lit "lock"
    · simp only [h1, h2, if_true, if_false]
      refine lockShare_ends _ ?_ client _ _
      intro hu
      have := hu.1
      rw [h2] at this
      exact absurd this (by decide)
    · by_cases h3 : args.command = lit "unlock"
      · simp only [h1, h2, h3, if_true, if_false]
        refine EndsFrom_congr _ _ ?_ _ _
          (unlockShare_ends host client args.unlockShareName args.unlockBatch stdin
            [Event.Login user password none])
        unfold Args.nothingToDo
        constructor
        · exact fun h => ⟨h3, h⟩
        · exact fun h => h.2
      · have h4 : args.command = lit "logout" := by
          rcases hcmd with h | h | h | h
          · exact absurd h h1
          · exact absurd h h2
          · exact absurd h h3
          · exact h
        simp only [h1, h2, h3, h4, if_true, if_false]
        have := logoutShare_ends args.nothingToDo (fun hu => h3 hu.1) client
          [Event.Login user password none] [] (by simp) (by simp)
        simpa using this

theorem isAbort_not_logout (ev : Event) (h : ev.isAbort = true) :
    ev.isLogout = false ∧ ev.isShareOp = false := by
  cases ev <;> simp [Event.isAbort] at h <;> exact ⟨rfl, rfl⟩

/-- After a successful login the rest of the trace splits in two: first events
without a logout, then events without a share operation. -/
theorem main_ok_split (host : Host) (client : Client) (user password : GoString)
    (args : Args) (stdin : GoString) (hlogin : client.Login [] user password = none) :
    ∃ a b, (main host client user password args stdin).trace =
        Event.Login user password none :: (a ++ b) ∧
      (∀ x ∈ a, x.isLogout = false) ∧ (∀ x ∈ b, x.isShareOp = false) := by
  by_cases hcmd : args.command = lit "list" ∨ args.command = lit "lock" ∨
      args.command = lit "unlock" ∨ args.command = lit "logout"
  · obtain ⟨mid, tail, ht, hmid, hcase⟩ :=
      main_ends host client user password args stdin hcmd hlogin
    refine ⟨mid, tail, by simpa [List.append_assoc] using ht, fun x hx => (hmid x hx).1, ?_⟩
    rcases hcase with ⟨_, _, h | ⟨e, h⟩⟩ | ⟨msg, _, _, h, _, _⟩ | ⟨_, _, msg, h⟩
    · subst h
      intro x hx
      simp only [List.mem_singleton] at hx
      subst hx
      rfl
    · subst h
      intro x hx
      simp only [List.mem_cons, List.mem_singleton, List.not_mem_nil, or_false] at hx
      rcases hx with h | h <;> subst h <;> rfl
    · subst h
      intro x hx
      simp only [List.mem_singleton] at hx
      subst hx
      rfl
    · subst h
      intro x hx
      simp only [List.mem_singleton] at hx
      subst hx
      rfl
  · simp only [not_or] at hcmd
    obtain ⟨h1, h2, h3, h4⟩ := hcmd
    refine ⟨[], [Event.Usage], ?_, by simp, ?_⟩
    · simp [main, hlogin, h1, h2, h3, h4, Res.trace]
    · intro x hx
      simp only [List.mem_singleton] at hx
      subst hx
      rfl

/-- C2, as the code has it: after a successful login, a run of one of the four
commands is a sequence of events without logout, fatal or usage error, followed
by one of three endings.  Either there was something to do and nothing failed,
and then `Logout` is called, once and after everything else (a failing logout
being reported with "Logout failed"); or the last event was a share operation,
a decode or a read that failed, and the fatal message follows it; or `unlock`
had neither share name nor batch flag and the usage error is all that follows
the login.  Hence a run in which nothing fails ends with the `Logout` call, and
a run in which an operation fails, or with nothing to do, has no `Logout` call. -/
theorem main_logout_unless_action_fails (host : Host) (client : Client)
    (user password : GoString) (args : Args) (stdin : GoString)
    (hcmd : args.command = lit "list" ∨ args.command = lit "lock" ∨
      args.command = lit "unlock" ∨ args.command = lit "logout")
    (hlogin : client.Login [] user password = none) :
    (∃ pre tail, (main host client user password args stdin).trace = pre ++ tail ∧
      (∀ ev ∈ pre, ev.isLogout = false ∧ ev.isAbort = false) ∧
      ((¬ args.nothingToDo ∧ (∀ ev ∈ pre, ev.failed = false) ∧
          (tail = [Event.Logout none] ∨
            ∃ e, tail = [Event.Logout (some e), Event.Fatal (lit "Logout failed: " ++ e)])) ∨
        (∃ msg pre0 f, tail = [Event.Fatal msg] ∧ pre = pre0 ++ [f] ∧ f.failed = true) ∨
        (args.nothingToDo ∧ pre = [Event.Login user password none] ∧
          ∃ msg, tail = [Event.UsageError msg]))) ∧
    (¬ args.nothingToDo →
      (∀ ev ∈ (main host client user password args stdin).trace, ev.failed = false) →
      ∃ pre, (∀ ev ∈ pre, ev.isLogout = false) ∧
        ((main host client user password args stdin).trace = pre ++ [Event.Logout none] ∨
          ∃ e, (main host client user password args stdin).trace =
            pre ++ [Event.Logout (some e), Event.Fatal (lit "Logout failed: " ++ e)])) ∧
    (∀ ev ∈ (main host client user password args stdin).trace, ev.failed = true →
      ∀ x ∈ (main host client user password args stdin).trace, x.isLogout = false) ∧
    (args.nothingToDo →
      ∀ x ∈ (main host client user password args stdin).trace, x.isLogout = false) := by
  obtain ⟨mid, tail, ht, hmid, hcase⟩ :=
    main_ends host client user password args stdin hcmd hlogin
  have hpre : ∀ ev ∈ [Event.Login user password none] ++ mid,
      ev.isLogout = false ∧ ev.isAbort = false := by
    intro ev hev
    rcases List.mem_append.mp hev with h | h
    · simp only [List.mem_singleton] at h
      subst h
      exact ⟨rfl, rfl⟩
    · exact hmid ev h
  have hpre2 : (∀ ev ∈ mid, ev.failed = false) →
      ∀ ev ∈ [Event.Login user password none] ++ mid, ev.failed = false := by
    intro hm ev hev
    rcases List.mem_append.mp hev with h | h
    · simp only [List.mem_singleton] at h
      subst h
      rfl
    · exact hm ev h
  -- a run that ends in a fatal or usage error holds no logout
  have hnone : ∀ a : Event, a.isLogout = false → tail = [a] →
      ∀ x ∈ (main host client user password args stdin).trace, x.isLogout = false := by
    intro a ha hta x hx
    rw [ht, hta] at hx
    rcases List.mem_append.mp hx with h1 | h1
    · exact (hpre x h1).1
    · simp only [List.mem_singleton] at h1
      subst h1
      exact ha
  refine ⟨?_, ?_, ?_, ?_⟩
  · refine ⟨[Event.Login user password none] ++ mid, tail, ht, hpre, ?_⟩
    rcases hcase with ⟨hu, hok, h⟩ | ⟨msg, mid0, f, h, hm, hf⟩ | ⟨hu, hm, h⟩
    · exact Or.inl ⟨hu, hpre2 hok, h⟩
    · refine Or.inr (Or.inl ⟨msg, [Event.Login user password none] ++ mid0, f, h, ?_, hf⟩)
      rw [hm, List.append_assoc]
    · refine Or.inr (Or.inr ⟨hu, ?_, h⟩)
      rw [hm]
      rfl
  · intro hnu hall
    rcases hcase with ⟨_, _, h⟩ | ⟨msg, mid0, f, h, hm, hf⟩ | ⟨hu, _, _⟩
    · refine ⟨[Event.Login user password none] ++ mid, fun ev hev => (hpre ev hev).1, ?_⟩
      rcases h with h | ⟨e, h⟩
      · left
        rw [ht, h]
      · right
        exact ⟨e, by rw [ht, h]⟩
    · exfalso
      have hmem : f ∈ (main host client user password args stdin).trace := by
        rw [ht, hm]
        simp
      have := hall f hmem
      rw [hf] at this
      cases this
    · exact absurd hu hnu
  · intro ev hev hfail
    rcases hcase with ⟨_, hok, h⟩ | ⟨msg, _, _, h, _, _⟩ | ⟨_, _, msg, h⟩
    · exfalso
      rw [ht] at hev
      rcases List.mem_append.mp hev with h1 | h1
      · have := hpre2 hok ev h1
        rw [hfail] at this
        cases this
      · rcases h with h | ⟨e, h⟩
        · subst h
          simp only [List.mem_singleton] at h1
          subst h1
          cases hfail
        · subst h
          simp only [List.mem_cons, List.mem_singleton, List.not_mem_nil, or_false] at h1
          rcases h1 with h1 | h1 <;> subst h1 <;> cases hfail
    · exact hnone (Event.Fatal msg) rfl h
    · exact hnone (Event.UsageError msg) rfl h
  · intro hu
    rcases hcase with ⟨hnu, _, _⟩ | ⟨msg, _, _, h, _, _⟩ | ⟨_, _, msg, h⟩
    · exact absurd hu hnu
    · exact hnone (Event.Fatal msg) rfl h
    · exact hnone (Event.UsageError msg) rfl h

/-- C9: in every run of `main`, the events before a share operation start with
the `Login` call that returned no error and contain no `Logout` call; and when
`Login` returns an error the run contains no share operation and no `Logout`. -/
theorem main_share_ops_in_session (host : Host) (client : Client)
    (user password : GoString) (args : Args) (stdin : GoString) :
    (∀ pre ev post, (main host client user password args stdin).trace = pre ++ ev :: post →
      ev.isShareOp = true →
      pre.head? = some (Event.Login user password none) ∧ ∀ x ∈ pre, x.isLogout = false) ∧
    (∀ e, client.Login [] user password = some e →
      ∀ ev ∈ (main host client user password args stdin).trace,
        ev.isShareOp = false ∧ ev.isLogout = false) := by
  constructor
  · intro pre ev post ht hev
    cases hl : client.Login [] user password with
    | some e =>
      rw [main_login_error host client user password args stdin e hl] at ht
      have hmem : ev ∈ [Event.Login user password (some e), Event.Fatal e] := by
        simp only [Res.trace] at ht
        rw [ht]
        simp
      simp only [List.mem_cons, List.mem_singleton, List.not_mem_nil, or_false] at hmem
      rcases hmem with h | h <;> subst h <;> cases hev
    | none =>
      obtain ⟨a, b, hab, ha, hb⟩ := main_ok_split host client user password args stdin hl
      rw [hab] at ht
      cases pre with
      | nil =>
        simp only [List.nil_append, List.cons.injEq] at ht
        rw [← ht.1] at hev
        cases hev
      | cons p pre1 =>
        simp only [List.cons_append, List.cons.injEq] at ht
        obtain ⟨hp, hrest⟩ := ht
        subst hp
        refine ⟨rfl, ?_⟩
        intro x hx
        rcases List.mem_cons.mp hx with h | h
        · subst h
          rfl
        · rcases List.append_eq_append_iff.mp hrest with ⟨c, h1, h2⟩ | ⟨c, h1, h2⟩
          · exfalso
            have := hb ev (by rw [h2]; simp)
            rw [hev] at this
            cases this
          · rw [h1] at ha
            exact ha x (List.mem_append_left _ h)
  · intro e hl ev hmem
    rw [main_login_error host client user password args stdin e hl] at hmem
    simp only [Res.trace, List.mem_cons, List.mem_singleton, List.not_mem_nil, or_false] at hmem
    rcases hmem with h | h <;> subst h <;> exact ⟨rfl, rfl⟩


/-! ## Decode failures -/

/-- C7, as the code has it: when decoding the manifest fails, the fatal message
carries the offset exactly when the error is a `*json.SyntaxError`, as
"Failed to decode JSON: <msg> (offset <Offset>)"; for every other decode error
it is "Failed to decode JSON: <error text>", with nothing added. -/
theorem unlockShare_decode_message (host : Host) (client : Client)
    (shareName stdin : GoString) (t : List Event) (err : DecodeError)
    (h : host.Decode stdin = Decoded.error err) :
    unlockShare host client shareName true stdin t =
      Res.exit (t ++ [Event.Decode (Decoded.error err), Event.Fatal
        (match err with
          | DecodeError.SyntaxError msg off =>
            lit "Failed to decode JSON: " ++ msg ++ lit " (offset " ++ fmtInt off ++ lit ")"
          | DecodeError.other msg => lit "Failed to decode JSON: " ++ msg)]) := by
  cases err <;> simp [unlockShare, unlockShare.passList, h]

set_option maxRecDepth 100000 in
/-- The stray character of `strayManifest` is reported with its offset, 2. -/
theorem unlockShare_decode_message_witness :
    unlockShare (hostOf strayDecoded) okClient [] true strayManifest [] =
      Res.exit [Event.Decode strayDecoded, Event.Fatal (lit
        "Failed to decode JSON: invalid character 'x' looking for beginning of value (offset 2)")] :=
  (unlockShare_decode_message (hostOf strayDecoded) okClient [] strayManifest []
    (DecodeError.SyntaxError (lit "invalid character 'x' looking for beginning of value") 2)
    rfl).trans (by decide)

/-- C7 fails as stated: on the truncated manifest the decode error is not a
syntax error, and the fatal message, "Failed to decode JSON: unexpected EOF",
holds no digit at all, hence no offset. -/
theorem truncated_manifest_reports_no_offset :
    unlockShare (hostOf truncatedDecoded) okClient [] true truncatedManifest [] =
      Res.exit [Event.Decode truncatedDecoded,
        Event.Fatal (lit "Failed to decode JSON: unexpected EOF")] ∧
    ∀ b ∈ lit "Failed to decode JSON: unexpected EOF", ¬ (48 ≤ b ∧ b ≤ 57) := by
  constructor
  · decide
  · decide

/-! ## Empty fields -/

/-- C4 fails in batch mode: the entry with an empty name and an empty password
is handed to `client.UnlockShare` as it is. -/
theorem unlockShare_batch_sends_empty_fields :
    unlockShare (hostOf emptyFieldsDecoded) okClient [] true emptyFieldsManifest [] =
      Res.ret () [Event.Decode emptyFieldsDecoded, Event.UnlockShare [] [] none,
        Event.Logout none] := by
  decide

theorem unlockCalls_of_not_shareOp (m : List Event) (h : ∀ ev ∈ m, ev.isShareOp = false) :
    unlockCalls m = [] := by
  unfold unlockCalls
  rw [List.filterMap_eq_nil_iff]
  intro x hx
  have := h x hx
  cases x <;> simp_all [Event.isShareOp]

/-- In single-share mode every `UnlockShare` call has a non-empty name and a
non-empty password: either no call is issued, or one call with the given
non-empty share name and the non-empty password read from stdin. -/
theorem unlockShare_single_nonempty (host : Host) (client : Client)
    (shareName stdin : GoString) (t : List Event) :
    unlockCalls (unlockShare host client shareName false stdin t).trace = unlockCalls t ∨
    ∃ pass, shareName ≠ [] ∧ pass ≠ [] ∧
      unlockCalls (unlockShare host client shareName false stdin t).trace =
        unlockCalls t ++ [(shareName, pass)] := by
  obtain ⟨m, hm, hcase⟩ := passList_cases host shareName false stdin t
  have hm0 : unlockCalls m = [] :=
    unlockCalls_of_not_shareOp m (fun ev hev => (hm ev hev).2.2)
  rcases hcase with ⟨_, _, reqs, hp⟩ | ⟨msg, _, _, _, _, hp⟩ | ⟨_, _, msg, hp | hp⟩
  · right
    rcases passList_ret host shareName false stdin t (t ++ m) reqs hp with
      ⟨hb, _⟩ | ⟨_, hn, pass, hpass, hreqs, ht⟩
    · cases hb
    · refine ⟨pass, hn, hpass, ?_⟩
      subst hreqs
      unfold unlockShare
      rw [hp]
      simp only []
      unfold unlockShare.loop
      cases hc : client.UnlockShare (t ++ m) shareName pass with
      | some e =>
        simp only [Res.trace]
        rw [unlockCalls_append, unlockCalls_append, unlockCalls_append, hm0]
        simp [unlockCalls]
      | none =>
        simp only [unlockShare.loop]
        unfold logoutShare
        cases client.Logout (t ++ m ++ [Event.UnlockShare shareName pass none]) <;>
          simp only [Res.trace] <;>
          simp only [unlockCalls_append, hm0] <;>
          simp [unlockCalls]
  · left
    unfold unlockShare
    rw [hp]
    simp only [Res.trace, unlockCalls_append, hm0]
    simp [unlockCalls]
  · left
    unfold unlockShare
    rw [hp]
    simp only [Res.trace, unlockCalls_append]
    simp [unlockCalls]
  · left
    unfold unlockShare
    rw [hp]
    simp only [Res.trace, unlockCalls_append]
    simp [unlockCalls]

/-! ## Instances -/

/-- Three requests, the second fails: `a` and `b` are attempted, `c` is not. -/
theorem unlockShare_stops_at_first_failure_witness :
    ∃ t, unlockShare (hostOf (Decoded.ok requestsABC))
        (unlockFailsOn (lit "b") (lit "wrong password")) [] true manifestABC [] = Res.exit t ∧
      unlockCalls t = [(lit "a", lit "p1"), (lit "b", lit "p2")] := by
  obtain ⟨t, h1, h2⟩ := unlockShare_stops_at_first_failure (hostOf (Decoded.ok requestsABC))
    (unlockFailsOn (lit "b") (lit "wrong password")) [] true manifestABC []
    [Event.Decode (Decoded.ok requestsABC)] requestsABC 1 (ShareInfo.mk (lit "b") (lit "p2"))
    (lit "wrong password") rfl rfl
    (fun j q hj hq => by
      have hj0 : j = 0 := by omega
      subst hj0
      simp only [requestsABC, List.getElem?_cons_zero, Option.some.injEq] at hq
      subst hq
      decide)
    (by decide)
  exact ⟨t, h1, h2.trans (by decide)⟩

/-- The scenario of the specification: unlocking `a` fails, the message names
`a`. -/
theorem unlockShare_failure_message_witness :
    ∃ t, unlockShare (hostOf (Decoded.ok requestsAB))
        (unlockFailsOn (lit "a") (lit "wrong password")) [] true manifestAB [] = Res.exit t ∧
      fatalMsgs t = [lit "Unlocking share 'a' failed: wrong password. Aborting."] ∧
      t.getLast? = some (Event.Fatal
        (lit "Unlocking share 'a' failed: wrong password. Aborting.")) := by
  obtain ⟨t, h1, h2, h3⟩ := unlockShare_failure_message (hostOf (Decoded.ok requestsAB))
    (unlockFailsOn (lit "a") (lit "wrong password")) [] true manifestAB []
    [Event.Decode (Decoded.ok requestsAB)] requestsAB 0 (ShareInfo.mk (lit "a") (lit "p1"))
    (lit "wrong password") rfl rfl
    (fun j _ hj _ => absurd hj (Nat.not_lt_zero j))
    (by decide)
  exact ⟨t, h1, h2.trans (by decide), h3.trans (by decide)⟩

/-- Two shares are listed as two rows, in the order received. -/
theorem listShares_rows_witness :
    tabWrites (listShares (listingClient sampleShares) []).trace =
      [lit "vault\tencrypted\tsecure\n", lit "media\tnone\t\n"] :=
  (listShares_rows (listingClient sampleShares) [] sampleShares rfl).trans (by decide)

/-- On the truncated manifest no unlock is attempted. -/
theorem unlockShare_decode_error_witness :
    (∃ msg, unlockShare (hostOf truncatedDecoded) okClient [] true truncatedManifest [] =
      Res.exit ([] ++ [Event.Decode (Decoded.error (DecodeError.other (lit "unexpected EOF"))),
        Event.Fatal msg])) ∧
    unlockCalls (unlockShare (hostOf truncatedDecoded) okClient [] true truncatedManifest
      []).trace = unlockCalls [] :=
  unlockShare_decode_error (hostOf truncatedDecoded) okClient [] truncatedManifest []
    (DecodeError.other (lit "unexpected EOF")) rfl

/-- C2 fails as stated: `Login` succeeds, `ListShares` returns an error, and the
run ends with `log.Fatal` without any `Logout` call. -/
theorem list_failure_skips_logout :
    main (hostOf (Decoded.ok [])) (listFailsClient (lit "connection refused")) (lit "admin")
        (lit "secret") listArgs [] =
      Res.exit [Event.Login (lit "admin") (lit "secret") none,
        Event.ListShares [] (some (lit "connection refused")),
        Event.Fatal (lit "connection refused")] ∧
    ∀ ev ∈ (main (hostOf (Decoded.ok [])) (listFailsClient (lit "connection refused"))
        (lit "admin") (lit "secret") listArgs []).trace, ev.isLogout = false := by
  constructor
  · decide
  · decide

/-- A `list` in which nothing fails ends with the one `Logout` call. -/
theorem main_logout_unless_action_fails_witness :
    (¬ listArgs.nothingToDo ∧
      ∀ ev ∈ (main (hostOf (Decoded.ok [])) (listingClient sampleShares) (lit "admin")
        (lit "secret") listArgs []).trace, ev.failed = false) ∧
    (main (hostOf (Decoded.ok [])) (listingClient sampleShares) (lit "admin") (lit "secret")
        listArgs []).trace.getLast? = some (Event.Logout none) ∧
    ∃ pre, (∀ ev ∈ pre, ev.isLogout = false) ∧
      ((main (hostOf (Decoded.ok [])) (listingClient sampleShares) (lit "admin")
          (lit "secret") listArgs []).trace = pre ++ [Event.Logout none] ∨
        ∃ e, (main (hostOf (Decoded.ok [])) (listingClient sampleShares) (lit "admin")
          (lit "secret") listArgs []).trace =
            pre ++ [Event.Logout (some e), Event.Fatal (lit "Logout failed: " ++ e)]) :=
  ⟨⟨fun h => absurd h.1 (by decide), by decide⟩, by decide,
    (main_logout_unless_action_fails (hostOf (Decoded.ok []))
      (listingClient sampleShares) (lit "admin") (lit "secret") listArgs [] (Or.inl rfl) rfl).2.1
      (fun h => absurd h.1 (by decide)) (by decide)⟩

/-- The password `hunter2` followed by a newline is read and returned. -/
theorem readPassword_example :
    readPassword (lit "hunter2\nrest") [] =
      Res.ret (lit "hunter2") [Event.ReadString (lit "hunter2\n") false] := by
  decide

/-- A password that is not followed by a newline is refused. -/
theorem readPassword_example_eof :
    readPassword (lit "hunter2") [] =
      Res.exit [Event.ReadString (lit "hunter2") true,
        Event.Fatal (lit "Failed to read password")] := by
  decide

/-- A successful single-share unlock: prompt, read, unlock, logout. -/
theorem main_unlock_example :
    main (hostOf (Decoded.ok [])) okClient (lit "admin") (lit "secret")
        (Args.mk (lit "unlock") [] (lit "vault") false) (lit "hunter2\n") =
      Res.ret () [Event.Login (lit "admin") (lit "secret") none,
        Event.Stderr (lit "Enter password (passing via stdin is also ok):\n"),
        Event.ReadString (lit "hunter2\n") false,
        Event.UnlockShare (lit "vault") (lit "hunter2") none,
        Event.Logout none] := by
  decide


/-- A successful `lock`: the share is locked, then the session is closed. -/
theorem main_lock_example :
    main (hostOf (Decoded.ok [])) okClient (lit "admin") (lit "secret")
        (Args.mk (lit "lock") (lit "vault") [] false) [] =
      Res.ret () [Event.Login (lit "admin") (lit "secret") none,
        Event.LockShare (lit "vault") none, Event.Logout none] := by
  decide

/-- The command `logout` closes the session and does nothing else. -/
theorem main_logout_example :
    main (hostOf (Decoded.ok [])) okClient (lit "admin") (lit "secret")
        (Args.mk (lit "logout") [] [] false) [] =
      Res.ret () [Event.Login (lit "admin") (lit "secret") none, Event.Logout none] := by
  decide


end SynoCli
